import Mathlib

/-!
Shallow embedding of the rustdoc syntax-highlighting classifier
(`src/librustdoc/html/highlight.rs`): the token-kind data model, the
`Class` enumeration with its `as_html` table, the `Highlight` event type,
and the `Classifier` state machine (`Classifier::advance`/`highlight`),
followed by theorems about the emitted event sequences.

The external lexer (`rustc_lexer`) is not part of the sources; the
classifier is therefore embedded as a transducer over an explicit list of
`(TokenKind, text)` pairs, which is exactly the interface the Rust code
consumes through its `Peekable<TokenIter>`.
-/

namespace Rustdoc

/-- Literal sub-kinds carried by `TokenKind::Literal` (`rustc_lexer::LiteralKind`):
only the constructor matters to the classifier, which maps text-like kinds to
`Class.String` and numeric kinds to `Class.Number`. -/
inductive LiteralKind
  | byte
  | char
  | str
  | byteStr
  | rawStr
  | rawByteStr
  | fStr
  | float
  | int
deriving DecidableEq, Repr

/-- Primitive lexical categories produced by the token source
(`rustc_lexer::TokenKind`), as matched by `Classifier::advance`.
Line and block comments carry only whether a doc-style flag is present,
which is all `advance` inspects (`doc_style.is_some()`). -/
inductive TokenKind
  | whitespace
  | lineComment (doc : Bool)
  | blockComment (doc : Bool)
  | bang
  | star
  | and
  | minus
  | plus
  | or
  | slash
  | caret
  | percent
  | eq
  | lt
  | gt
  | dot
  | semi
  | comma
  | openParen
  | closeParen
  | openBrace
  | closeBrace
  | openBracket
  | closeBracket
  | at
  | tilde
  | colon
  | pound
  | dollar
  | question
  | literal (kind : LiteralKind)
  | ident
  | rawIdent
  | lifetime
  | unknown
deriving DecidableEq, Repr

/-- One token of the stream: its kind and its exact source text slice. -/
structure Tok where
  kind : TokenKind
  text : String
deriving DecidableEq, Repr

/-- Abbreviation for the ambient string type, usable inside the `Class`
namespace where the constructor `Class.String` shadows it. -/
abbrev Str := String

/-- Semantic highlighting categories (`enum Class` in highlight.rs). -/
inductive Class
  | Comment
  | DocComment
  | Attribute
  | KeyWord
  | RefKeyWord
  | Self_
  | Op
  | Macro
  | MacroNonTerminal
  | String
  | Number
  | Bool
  | Ident
  | Lifetime
  | PreludeTy
  | PreludeVal
  | QuestionMark
deriving DecidableEq, Repr

/-- `Class::as_html`: the css class expected by rustdoc for each `Class`. -/
def Class.as_html : Class → Str
  | Class.Comment => "comment"
  | Class.DocComment => "doccomment"
  | Class.Attribute => "attribute"
  | Class.KeyWord => "kw"
  | Class.RefKeyWord => "kw-2"
  | Class.Self_ => "self"
  | Class.Op => "op"
  | Class.Macro => "macro"
  | Class.MacroNonTerminal => "macro-nonterminal"
  | Class.String => "string"
  | Class.Number => "number"
  | Class.Bool => "bool-val"
  | Class.Ident => "ident"
  | Class.Lifetime => "lifetime"
  | Class.PreludeTy => "prelude-ty"
  | Class.PreludeVal => "prelude-val"
  | Class.QuestionMark => "question-mark"

/-- Highlight events (`enum Highlight` in highlight.rs): a token with an
optional class, a span opening with a class, or a span closing. -/
inductive Highlight
  | Token (text : String) (klass : Option Class)
  | EnterSpan (klass : Class)
  | ExitSpan
deriving DecidableEq, Repr

/-- Language editions (`rustc_span::edition::Edition`), used only for the
reserved-word lookup. Two editions suffice to model edition-dependence. -/
inductive Edition
  | e2015
  | e2018
deriving DecidableEq, Repr

/-- Modelled from the spec: the external reserved-word lookup
`Symbol::intern(text).is_reserved(|| self.edition)` (rustc_span is not among
the sources). The spec says the edition "affects only which identifier texts
count as reserved keywords"; the table below models strict keywords reserved
in every edition plus words reserved only from the 2018 edition on. -/
def is_reserved (text : String) (ed : Edition) : Bool :=
  [ "as", "break", "const", "continue", "crate", "else", "enum", "extern",
    "fn", "for", "if", "impl", "in", "let", "loop", "match", "mod", "move",
    "pub", "return", "static", "struct", "super", "trait", "type", "unsafe",
    "use", "where", "while", "abstract", "become", "box", "do", "final",
    "macro", "override", "priv", "typeof", "unsized", "virtual", "yield"
  ].contains text
  || (ed == Edition.e2018 &&
      ["async", "await", "dyn", "try"].contains text)

/-- The classifier state (`struct Classifier`), minus the token stream,
which the embedding passes explicitly: the three flags and the edition. -/
structure Classifier where
  inAttribute : Bool
  inMacro : Bool
  inMacroNonterminal : Bool
  edition : Edition
deriving DecidableEq, Repr

/-- `Classifier::new`: all flags start false. -/
def Classifier.new (ed : Edition) : Classifier :=
  { inAttribute := false, inMacro := false, inMacroNonterminal := false,
    edition := ed }

/-- Kind of the next (peeked) token, `Classifier::peek`. -/
def headKind (rest : List Tok) : Option TokenKind :=
  rest.head?.map Tok.kind

/-- One call of `Classifier::advance` on the current token `tok`, with `rest`
the not-yet-consumed remainder of the stream (used for the one- and two-token
peeks). Returns the updated state, whether one extra token was consumed from
`rest` (the merged `&&`/`&=` emissions and the `#`/`!` case), and the list of
emitted `Highlight` events, in emission order. -/
def step (c : Classifier) (tok : Tok) (rest : List Tok) :
    Classifier × Bool × List Highlight :=
  match tok.kind with
  | TokenKind.whitespace => (c, false, [Highlight.Token tok.text none])
  | TokenKind.lineComment doc =>
      (c, false, [Highlight.Token tok.text
        (some (if doc then Class.DocComment else Class.Comment))])
  | TokenKind.blockComment doc =>
      (c, false, [Highlight.Token tok.text
        (some (if doc then Class.DocComment else Class.Comment))])
  | TokenKind.bang =>
      if c.inMacro then
        ({ c with inMacro := false }, false,
         [Highlight.Token tok.text (some Class.Macro)])
      else (c, false, [Highlight.Token tok.text (some Class.Op)])
  | TokenKind.star =>
      if headKind rest = some TokenKind.whitespace then
        (c, false, [Highlight.Token tok.text (some Class.Op)])
      else (c, false, [Highlight.Token tok.text (some Class.RefKeyWord)])
  | TokenKind.and =>
      if headKind rest = some TokenKind.and then
        (c, true, [Highlight.Token "&&" (some Class.Op)])
      else if headKind rest = some TokenKind.eq then
        (c, true, [Highlight.Token "&=" (some Class.Op)])
      else if headKind rest = some TokenKind.whitespace then
        (c, false, [Highlight.Token tok.text (some Class.Op)])
      else (c, false, [Highlight.Token tok.text (some Class.RefKeyWord)])
  | TokenKind.minus => (c, false, [Highlight.Token tok.text (some Class.Op)])
  | TokenKind.plus => (c, false, [Highlight.Token tok.text (some Class.Op)])
  | TokenKind.or => (c, false, [Highlight.Token tok.text (some Class.Op)])
  | TokenKind.slash => (c, false, [Highlight.Token tok.text (some Class.Op)])
  | TokenKind.caret => (c, false, [Highlight.Token tok.text (some Class.Op)])
  | TokenKind.percent => (c, false, [Highlight.Token tok.text (some Class.Op)])
  | TokenKind.eq => (c, false, [Highlight.Token tok.text (some Class.Op)])
  | TokenKind.lt => (c, false, [Highlight.Token tok.text (some Class.Op)])
  | TokenKind.gt => (c, false, [Highlight.Token tok.text (some Class.Op)])
  | TokenKind.dot => (c, false, [Highlight.Token tok.text none])
  | TokenKind.semi => (c, false, [Highlight.Token tok.text none])
  | TokenKind.comma => (c, false, [Highlight.Token tok.text none])
  | TokenKind.openParen => (c, false, [Highlight.Token tok.text none])
  | TokenKind.closeParen => (c, false, [Highlight.Token tok.text none])
  | TokenKind.openBrace => (c, false, [Highlight.Token tok.text none])
  | TokenKind.closeBrace => (c, false, [Highlight.Token tok.text none])
  | TokenKind.openBracket => (c, false, [Highlight.Token tok.text none])
  | TokenKind.at => (c, false, [Highlight.Token tok.text none])
  | TokenKind.tilde => (c, false, [Highlight.Token tok.text none])
  | TokenKind.colon => (c, false, [Highlight.Token tok.text none])
  | TokenKind.unknown => (c, false, [Highlight.Token tok.text none])
  | TokenKind.question =>
      (c, false, [Highlight.Token tok.text (some Class.QuestionMark)])
  | TokenKind.dollar =>
      if headKind rest = some TokenKind.ident then
        ({ c with inMacroNonterminal := true }, false,
         [Highlight.Token tok.text (some Class.MacroNonTerminal)])
      else (c, false, [Highlight.Token tok.text none])
  | TokenKind.pound =>
      if headKind rest = some TokenKind.bang then
        -- Case 1: #![inner_attribute] — the `!` is consumed; the span
        -- opens only when the token after the `!` is `[`.
        (if headKind rest.tail = some TokenKind.openBracket then
          ({ c with inAttribute := true }, true,
           [Highlight.EnterSpan Class.Attribute,
            Highlight.Token "#" none, Highlight.Token "!" none])
        else
          (c, true,
           [Highlight.Token "#" none, Highlight.Token "!" none]))
      else if headKind rest = some TokenKind.openBracket then
        -- Case 2: #[outer_attribute]
        ({ c with inAttribute := true }, false,
         [Highlight.EnterSpan Class.Attribute,
          Highlight.Token tok.text none])
      else (c, false, [Highlight.Token tok.text none])
  | TokenKind.closeBracket =>
      if c.inAttribute then
        ({ c with inAttribute := false }, false,
         [Highlight.Token "]" none, Highlight.ExitSpan])
      else (c, false, [Highlight.Token tok.text none])
  | TokenKind.literal k =>
      (c, false, [Highlight.Token tok.text
        (some (match k with
               | LiteralKind.float => Class.Number
               | LiteralKind.int => Class.Number
               | _ => Class.String))])
  | TokenKind.ident =>
      if headKind rest = some TokenKind.bang then
        ({ c with inMacro := true }, false,
         [Highlight.Token tok.text (some Class.Macro)])
      else if tok.text = "ref" ∨ tok.text = "mut" then
        (c, false, [Highlight.Token tok.text (some Class.RefKeyWord)])
      else if tok.text = "self" ∨ tok.text = "Self" then
        (c, false, [Highlight.Token tok.text (some Class.Self_)])
      else if tok.text = "false" ∨ tok.text = "true" then
        (c, false, [Highlight.Token tok.text (some Class.Bool)])
      else if tok.text = "Option" ∨ tok.text = "Result" then
        (c, false, [Highlight.Token tok.text (some Class.PreludeTy)])
      else if tok.text = "Some" ∨ tok.text = "None" ∨ tok.text = "Ok" ∨
          tok.text = "Err" then
        (c, false, [Highlight.Token tok.text (some Class.PreludeVal)])
      else if is_reserved tok.text c.edition then
        (c, false, [Highlight.Token tok.text (some Class.KeyWord)])
      else if c.inMacroNonterminal then
        ({ c with inMacroNonterminal := false }, false,
         [Highlight.Token tok.text (some Class.MacroNonTerminal)])
      else
        (c, false, [Highlight.Token tok.text (some Class.Ident)])
  | TokenKind.rawIdent =>
      if headKind rest = some TokenKind.bang then
        ({ c with inMacro := true }, false,
         [Highlight.Token tok.text (some Class.Macro)])
      else (c, false, [Highlight.Token tok.text (some Class.Ident)])
  | TokenKind.lifetime =>
      (c, false, [Highlight.Token tok.text (some Class.Lifetime)])

/-- The driver loop of `Classifier::highlight`, written with an explicit
fuel argument so that it is structurally recursive (each `advance` consumes
at least one token, so `toks.length` fuel always suffices; see
`runFrom_cons` for the intended recursion equation). -/
def runFromAux : Nat → Classifier → List Tok → List Highlight
  | 0, _, _ => []
  | _ + 1, _, [] => []
  | fuel + 1, c, tok :: rest =>
      let r := step c tok rest
      r.2.2 ++ runFromAux fuel r.1 (if r.2.1 then rest.tail else rest)

/-- The driver loop of `Classifier::highlight`: repeatedly `advance` on the
next token until the stream is exhausted, concatenating the emitted events. -/
def runFrom (c : Classifier) (toks : List Tok) : List Highlight :=
  runFromAux toks.length c toks

/-- `highlight(source, edition, sink)`: run the classifier from a fresh state
over the whole token stream; the event list is the sequence of sink calls. -/
def highlight (toks : List Tok) (ed : Edition) : List Highlight :=
  runFrom (Classifier.new ed) toks

/-- Number of `EnterSpan` events in an event list. -/
def countEnter (evs : List Highlight) : Nat :=
  (evs.filter fun ev =>
    match ev with
    | Highlight.EnterSpan _ => true
    | _ => false).length

/-- Number of `ExitSpan` events in an event list. -/
def countExit (evs : List Highlight) : Nat :=
  (evs.filter fun ev =>
    match ev with
    | Highlight.ExitSpan => true
    | _ => false).length

/-- Concatenation of the `text` fields of the `Token` events, in emission
order; `EnterSpan`/`ExitSpan` contribute nothing. -/
def textConcat (evs : List Highlight) : String :=
  evs.foldr
    (fun ev acc =>
      match ev with
      | Highlight.Token t _ => t ++ acc
      | _ => acc) ""

/-- Concatenation of the source texts of a token list: under the spec's
token-source contract (slices cover the input with no gaps or overlaps),
this is exactly the original input text. -/
def srcConcat (toks : List Tok) : String :=
  toks.foldr (fun t acc => t.text ++ acc) ""

/-- Modelled from the spec: the texts the external lexer (`rustc_lexer`,
not among the sources) attaches to the single-character punctuation kinds
whose text the classifier re-synthesizes from literals (`&&`, `&=`, `#`,
`!`, `]`). All other kinds are unconstrained. -/
def wellLexedTok (t : Tok) : Bool :=
  match t.kind with
  | TokenKind.and => t.text == "&"
  | TokenKind.eq => t.text == "="
  | TokenKind.pound => t.text == "#"
  | TokenKind.bang => t.text == "!"
  | TokenKind.closeBracket => t.text == "]"
  | _ => true

/-- A token stream as the lexer would actually produce it (see
`wellLexedTok`). -/
def WellLexed (toks : List Tok) : Prop :=
  toks.all wellLexedTok = true

/-- Number of `#` tokens in a token list. -/
def countPound (toks : List Tok) : Nat :=
  (toks.filter fun t => t.kind == TokenKind.pound).length

/-- A token list with no `#` token. -/
def PoundFree (toks : List Tok) : Prop :=
  ∀ t ∈ toks, t.kind ≠ TokenKind.pound

/-- Whether a token list contains a `]` token. -/
def containsClose (toks : List Tok) : Bool :=
  toks.any fun t => t.kind == TokenKind.closeBracket

/-- One unit of "span budget": 1 when an attribute span is currently open. -/
def attrBudget (c : Classifier) : Nat :=
  if c.inAttribute then 1 else 0

/-- Attribute-span nesting depth never goes negative: over every prefix of
the event sequence, `ExitSpan`s never outnumber `EnterSpan`s. -/
def DepthNonneg (evs : List Highlight) : Prop :=
  ∀ p q, evs = p ++ q → countExit p ≤ countEnter p

/-- Attribute-span nesting depth never exceeds 1: over every prefix of the
event sequence, `EnterSpan`s outnumber `ExitSpan`s by at most one. -/
def DepthLE1 (evs : List Highlight) : Prop :=
  ∀ p q, evs = p ++ q → countEnter p ≤ countExit p + 1

/-- The token list contains a complete `#[...]` or `#![...]` attribute
construct: an opener, an interior free of `#` and `]`, and a closing `]`. -/
def ContainsCompleteAttr (toks : List Tok) : Prop :=
  ∃ pre opener mid post,
    toks = pre ++ opener ++ mid ++ post ∧
    ((∃ t1 t2, opener = [⟨TokenKind.pound, t1⟩, ⟨TokenKind.openBracket, t2⟩]) ∨
     (∃ t1 t2 t3, opener = [⟨TokenKind.pound, t1⟩, ⟨TokenKind.bang, t2⟩,
        ⟨TokenKind.openBracket, t3⟩])) ∧
    (∀ t ∈ mid, t.kind ≠ TokenKind.pound ∧ t.kind ≠ TokenKind.closeBracket) ∧
    (∃ t4 post', post = ⟨TokenKind.closeBracket, t4⟩ :: post')

/-- Two events are equal up to the class of an identifier token: either
identical, or both `Token` events with the same text whose classes are
drawn from the edition-sensitive identifier classes (`KeyWord`,
`MacroNonTerminal`, `Ident`). -/
def SimilarEvent (a b : Highlight) : Prop :=
  a = b ∨
  ∃ t c1 c2,
    (c1 = Class.KeyWord ∨ c1 = Class.MacroNonTerminal ∨ c1 = Class.Ident) ∧
    (c2 = Class.KeyWord ∨ c2 = Class.MacroNonTerminal ∨ c2 = Class.Ident) ∧
    a = Highlight.Token t (some c1) ∧ b = Highlight.Token t (some c2)

/-- Reachability between classifier configurations (state plus remaining
token stream): the reflexive closure of single `advance` steps, each of
which consumes the head token and possibly one extra lookahead token. -/
inductive Reach : Classifier × List Tok → Classifier × List Tok → Prop
  | refl (a : Classifier × List Tok) : Reach a a
  | tail {a : Classifier × List Tok} (c : Classifier) (tok : Tok)
      (rest : List Tok) (h : Reach a (c, tok :: rest)) :
      Reach a ((step c tok rest).1,
        if (step c tok rest).2.1 then rest.tail else rest)

theorem runFromAux_nil (fuel : Nat) (c : Classifier) :
    runFromAux fuel c [] = [] := by
  cases fuel <;> rfl

theorem length_if_tail_le (b : Bool) (rest : List Tok) :
    (if b then rest.tail else rest).length ≤ rest.length := by
  cases b <;> simp [List.length_tail]

theorem runFromAux_congr :
    ∀ (fuel fuel' : Nat) (c : Classifier) (toks : List Tok),
      toks.length ≤ fuel → toks.length ≤ fuel' →
      runFromAux fuel c toks = runFromAux fuel' c toks := by
  intro fuel
  induction fuel with
  | zero =>
      intro fuel' c toks h _
      have : toks = [] := List.length_eq_zero.mp (Nat.le_zero.mp h)
      subst this

      exact (runFromAux_nil fuel' c).symm
  | succ n ih =>
      intro fuel' c toks h h'
      match toks with
      | [] => rw [runFromAux_nil, runFromAux_nil]
      | tok :: rest =>
          match fuel' with
          | 0 => exact absurd h' (by simp)
          | m + 1 =>
              simp only [runFromAux]
              have hr : rest.length ≤ n := by
                simpa using Nat.lt_succ_iff.mp (Nat.lt_of_lt_of_le (by simp) h)
              have hr' : rest.length ≤ m := by
                simpa using Nat.lt_succ_iff.mp (Nat.lt_of_lt_of_le (by simp) h')
              have hle := length_if_tail_le (step c tok rest).2.1 rest
              exact congrArg _ (ih m _ _ (Nat.le_trans hle hr) (Nat.le_trans hle hr'))

/-- The recursion equation of the classifier loop: one `advance` step emits
its events and the loop continues on the remaining (possibly shortened)
stream with the updated state. -/
theorem runFrom_cons (c : Classifier) (tok : Tok) (rest : List Tok) :
    runFrom c (tok :: rest) =
      (step c tok rest).2.2 ++
        runFrom (step c tok rest).1
          (if (step c tok rest).2.1 then rest.tail else rest) := by
  show runFromAux (rest.length + 1) c (tok :: rest) = _
  simp only [runFromAux]
  exact congrArg _ (runFromAux_congr _ _ _ _
    (length_if_tail_le _ _) (Nat.le_refl _))

theorem runFrom_nil (c : Classifier) : runFrom c [] = [] := rfl

theorem countEnter_append (a b : List Highlight) :
    countEnter (a ++ b) = countEnter a + countEnter b := by
  simp [countEnter, List.filter_append]

theorem countExit_append (a b : List Highlight) :
    countExit (a ++ b) = countExit a + countExit b := by
  simp [countExit, List.filter_append]

theorem textConcat_append (a b : List Highlight) :
    textConcat (a ++ b) = textConcat a ++ textConcat b := by
  induction a with
  | nil => simp [textConcat]
  | cons ev a ih =>
      cases ev <;> simp [textConcat, List.foldr] at ih ⊢ <;>
        simp [ih, String.append_assoc]

theorem srcConcat_cons (t : Tok) (toks : List Tok) :
    srcConcat (t :: toks) = t.text ++ srcConcat toks := rfl

theorem headKind_some {rest : List Tok} {k : TokenKind}
    (h : headKind rest = some k) :
    ∃ u rest', rest = u :: rest' ∧ u.kind = k := by
  cases rest with
  | nil => simp [headKind] at h
  | cons u r =>
      refine ⟨u, r, rfl, ?_⟩
      simpa [headKind] using h

/-- When a step consumes an extra token, that token is the second `&` of
`&&`, the `=` of `&=`, or the `!` after a `#`. -/
theorem step_consumed (c : Classifier) (tok : Tok) (rest : List Tok)
    (h : (step c tok rest).2.1 = true) :
    ∃ u rest', rest = u :: rest' ∧
      (u.kind = TokenKind.and ∨ u.kind = TokenKind.eq ∨
       u.kind = TokenKind.bang) := by
  obtain ⟨k, t⟩ := tok
  cases k
  case and =>
    simp only [step] at h
    by_cases hk : headKind rest = some TokenKind.and
    · obtain ⟨u, rest', rfl, hu⟩ := headKind_some hk
      exact ⟨u, rest', rfl, Or.inl hu⟩
    · rw [if_neg hk] at h
      by_cases hk2 : headKind rest = some TokenKind.eq
      · obtain ⟨u, rest', rfl, hu⟩ := headKind_some hk2
        exact ⟨u, rest', rfl, Or.inr (Or.inl hu)⟩
      · rw [if_neg hk2] at h
        split_ifs at h <;> simp at h
  case pound =>
    simp only [step] at h
    by_cases hk : headKind rest = some TokenKind.bang
    · obtain ⟨u, rest', rfl, hu⟩ := headKind_some hk
      exact ⟨u, rest', rfl, Or.inr (Or.inr hu)⟩
    · rw [if_neg hk] at h
      split_ifs at h <;> simp at h
  all_goals
    simp only [step] at h
  all_goals
    repeat first
      | (split_ifs at h)
      | (split at h)
  all_goals
    simp at h

/-- Every `advance` step emits events of one of four shapes: a single token
event (state's attribute flag untouched); the merged `#`/`!` pair with no
span opened (only at a `#` token); an `EnterSpan(Attribute)` followed by the
token text(s) (only at a `#` token, leaving the flag set); or a `]` followed
by `ExitSpan` (only at a `]` token while the flag was set, clearing it). -/
theorem step_shape (c : Classifier) (tok : Tok) (rest : List Tok) :
    (∃ x y, (step c tok rest).2.2 = [Highlight.Token x y]
       ∧ (step c tok rest).1.inAttribute = c.inAttribute)
    ∨ ((step c tok rest).2.2 =
          [Highlight.Token "#" none, Highlight.Token "!" none]
       ∧ (step c tok rest).1.inAttribute = c.inAttribute
       ∧ tok.kind = TokenKind.pound)
    ∨ (((step c tok rest).2.2 =
          [Highlight.EnterSpan Class.Attribute, Highlight.Token tok.text none]
        ∨ (step c tok rest).2.2 =
            [Highlight.EnterSpan Class.Attribute,
             Highlight.Token "#" none, Highlight.Token "!" none])
       ∧ (step c tok rest).1.inAttribute = true
       ∧ tok.kind = TokenKind.pound)
    ∨ ((step c tok rest).2.2 = [Highlight.Token "]" none, Highlight.ExitSpan]
       ∧ (step c tok rest).1.inAttribute = false
       ∧ c.inAttribute = true
       ∧ tok.kind = TokenKind.closeBracket) := by
  obtain ⟨k, t⟩ := tok
  cases k
  all_goals simp only [step]
  all_goals
    repeat first
      | (split_ifs)
      | (split)
  all_goals simp_all

theorem countExit_prefix_le (p q : List Highlight) :
    countExit p ≤ countExit (p ++ q) := by
  simp [countExit_append]

theorem countEnter_prefix_le (p q : List Highlight) :
    countEnter p ≤ countEnter (p ++ q) := by
  simp [countEnter_append]

theorem no_exit_prefix {evs p q : List Highlight} (h : countExit evs = 0)
    (hpq : evs = p ++ q) (n : Nat) : countExit p ≤ countEnter p + n := by
  have h2 := countExit_prefix_le p q
  rw [← hpq, h] at h2
  omega

theorem exit_pair_prefix {x : Highlight} (hx : countExit [x] = 0)
    {p q : List Highlight} (hpq : [x, Highlight.ExitSpan] = p ++ q) :
    countExit p ≤ countEnter p + 1 := by
  rcases p with _ | ⟨a, _ | ⟨b, p'⟩⟩
  · simp [countExit]
  · simp only [List.cons_append, List.nil_append] at hpq
    injection hpq with h1 h2
    subst h1
    rw [hx]
    exact Nat.zero_le _
  · simp only [List.cons_append] at hpq
    injection hpq with h1 hpq2
    injection hpq2 with h2 hpq3
    have hp' : p' = [] := (List.append_eq_nil.mp hpq3.symm).1
    subst h1
    subst hp'
    subst h2
    have : countExit [x, Highlight.ExitSpan] = 1 := by
      have := countExit_append [x] [Highlight.ExitSpan]
      simp only [List.cons_append, List.nil_append] at this
      rw [this, hx]
      simp [countExit]
    omega

/-- Per-step span accounting: any prefix of the emitted events has at most
`attrBudget c` more exits than enters; the step's whole emission plus the
new budget is bounded by its enters plus the old budget; and a step can
emit an `EnterSpan` only at a `#` token. -/
theorem step_span_bound (c : Classifier) (tok : Tok) (rest : List Tok) :
    (∀ p q, (step c tok rest).2.2 = p ++ q →
       countExit p ≤ countEnter p + attrBudget c)
    ∧ countExit (step c tok rest).2.2 + attrBudget (step c tok rest).1
        ≤ countEnter (step c tok rest).2.2 + attrBudget c
    ∧ countEnter (step c tok rest).2.2
        ≤ (if tok.kind = TokenKind.pound then 1 else 0) := by
  rcases step_shape c tok rest with
    ⟨x, y, hev, hfl⟩ | ⟨hev, hfl, hk⟩ | ⟨hev | hev, hfl, hk⟩ | ⟨hev, hfl, hc, hk⟩
  · refine ⟨fun p q hpq => no_exit_prefix (by simp [hev, countExit]) hpq _, ?_, ?_⟩
    · rw [hev]
      simp [countExit, countEnter, attrBudget, hfl]
    · rw [hev]
      simp [countEnter]
  · refine ⟨fun p q hpq => no_exit_prefix (by simp [hev, countExit]) hpq _, ?_, ?_⟩
    · rw [hev]
      simp [countExit, countEnter, attrBudget, hfl]
    · rw [hev]
      simp [countEnter]
  · refine ⟨fun p q hpq => no_exit_prefix (by simp [hev, countExit]) hpq _, ?_, ?_⟩
    · rw [hev]
      simp [countExit, countEnter, attrBudget, hfl]
    · rw [hev, hk]
      simp [countEnter]
  · refine ⟨fun p q hpq => no_exit_prefix (by simp [hev, countExit]) hpq _, ?_, ?_⟩
    · rw [hev]
      simp [countExit, countEnter, attrBudget, hfl]
    · rw [hev, hk]
      simp [countEnter]
  · refine ⟨?_, ?_, ?_⟩
    · intro p q hpq
      rw [hev] at hpq
      have := exit_pair_prefix (x := Highlight.Token "]" none)
        (by simp [countExit]) hpq
      simp [attrBudget, hc]
      omega
    · rw [hev]
      simp [countExit, countEnter, attrBudget, hfl, hc]
    · rw [hev]
      simp [countEnter]

theorem countPound_cons (u : Tok) (r : List Tok) :
    countPound (u :: r) =
      (if u.kind = TokenKind.pound then 1 else 0) + countPound r := by
  by_cases h : u.kind = TokenKind.pound <;>
    simp [countPound, List.filter_cons, h, Nat.add_comm]

theorem countPound_tail_le (r : List Tok) :
    countPound r.tail ≤ countPound r := by
  cases r with
  | nil => exact Nat.le_refl _
  | cons u r' => rw [List.tail_cons, countPound_cons]; omega

/-- Over any run, every event-list prefix has at most `attrBudget c` more
`ExitSpan`s than `EnterSpan`s. -/
theorem runFrom_depth_bound :
    ∀ (n : Nat) (toks : List Tok) (c : Classifier), toks.length ≤ n →
      ∀ p q, runFrom c toks = p ++ q →
        countExit p ≤ countEnter p + attrBudget c := by
  intro n
  induction n with
  | zero =>
      intro toks c h p q hpq
      have htoks : toks = [] := List.length_eq_zero.mp (Nat.le_zero.mp h)
      subst htoks
      rw [runFrom_nil] at hpq
      have hp : p = [] := (List.append_eq_nil.mp hpq.symm).1
      subst hp
      simp [countExit]
  | succ n ih =>
      intro toks c h p q hpq
      match toks with
      | [] =>
          rw [runFrom_nil] at hpq
          have hp : p = [] := (List.append_eq_nil.mp hpq.symm).1
          subst hp
          simp [countExit]
      | tok :: rest =>
          rw [runFrom_cons] at hpq
          have hlen : (if (step c tok rest).2.1 then rest.tail
              else rest).length ≤ n := by
            have h1 := length_if_tail_le (step c tok rest).2.1 rest
            have h2 : rest.length ≤ n := by simpa using Nat.succ_le_succ_iff.mp h
            omega
          rcases List.append_eq_append_iff.mp hpq with
            ⟨a', ha1, ha2⟩ | ⟨c'', hc1, hc2⟩
          · -- p = evs ++ a', with a' a prefix of the recursive run
            subst ha1
            have hstep := (step_span_bound c tok rest).2.1
            have hrec := ih _ (step c tok rest).1 hlen a' q ha2
            rw [countExit_append, countEnter_append]
            omega
          · -- p is a prefix of this step's events
            exact (step_span_bound c tok rest).1 p c'' hc1
/-- Over any run, at most one `EnterSpan` is emitted per `#` token. -/
theorem runFrom_enter_le_pound :
    ∀ (n : Nat) (toks : List Tok) (c : Classifier), toks.length ≤ n →
      countEnter (runFrom c toks) ≤ countPound toks := by
  intro n
  induction n with
  | zero =>
      intro toks c h
      have htoks : toks = [] := List.length_eq_zero.mp (Nat.le_zero.mp h)
      subst htoks
      rw [runFrom_nil]
      simp [countEnter]
  | succ n ih =>
      intro toks c h
      match toks with
      | [] =>
          rw [runFrom_nil]
          simp [countEnter]
      | tok :: rest =>
          rw [runFrom_cons, countEnter_append]
          have hlen : (if (step c tok rest).2.1 then rest.tail
              else rest).length ≤ n := by
            have h1 := length_if_tail_le (step c tok rest).2.1 rest
            have h2 : rest.length ≤ n := by simpa using Nat.succ_le_succ_iff.mp h
            omega
          have hrec := ih _ (step c tok rest).1 hlen
          have hstep := (step_span_bound c tok rest).2.2
          have hmono : countPound (if (step c tok rest).2.1 then rest.tail
              else rest) ≤ countPound rest := by
            cases hb : (step c tok rest).2.1 <;> simp [countPound_tail_le]
          rw [countPound_cons]
          omega

@[simp] theorem textConcat_nil : textConcat [] = "" := rfl

@[simp] theorem textConcat_token (t : String) (y : Option Class)
    (evs : List Highlight) :
    textConcat (Highlight.Token t y :: evs) = t ++ textConcat evs := rfl

@[simp] theorem textConcat_enter (cl : Class) (evs : List Highlight) :
    textConcat (Highlight.EnterSpan cl :: evs) = textConcat evs := rfl

@[simp] theorem textConcat_exit (evs : List Highlight) :
    textConcat (Highlight.ExitSpan :: evs) = textConcat evs := rfl

/-- Per-step text preservation: the texts a step emits, followed by the
texts of the tokens it leaves unconsumed, reproduce the current token's
text followed by the rest of the stream — provided the punctuation tokens
whose text the step re-synthesizes carry their actual lexer texts. -/
theorem step_text (c : Classifier) (tok : Tok) (rest : List Tok)
    (h1 : wellLexedTok tok = true) (h2 : rest.all wellLexedTok = true) :
    textConcat (step c tok rest).2.2 ++
        srcConcat (if (step c tok rest).2.1 then rest.tail else rest)
      = tok.text ++ srcConcat rest := by
  obtain ⟨k, t⟩ := tok
  cases k
  case and =>
    have ht : t = "&" := by simpa [wellLexedTok] using h1
    simp only [step]
    by_cases hk : headKind rest = some TokenKind.and
    · obtain ⟨u, rest', rfl, hu⟩ := headKind_some hk
      have hut : u.text = "&" := by
        have hwl : wellLexedTok u = true := by
          simp only [List.all_cons, Bool.and_eq_true] at h2
          exact h2.1
        simpa [wellLexedTok, hu] using hwl
      simp only [hk, if_pos, if_true, List.tail_cons, textConcat_token,
        textConcat_nil, srcConcat_cons, hut, ht, String.append_empty]
      rw [← String.append_assoc]
      rfl
    · rw [if_neg hk]
      by_cases hk2 : headKind rest = some TokenKind.eq
      · obtain ⟨u, rest', rfl, hu⟩ := headKind_some hk2
        have hut : u.text = "=" := by
          have hwl : wellLexedTok u = true := by
            simp only [List.all_cons, Bool.and_eq_true] at h2
            exact h2.1
          simpa [wellLexedTok, hu] using hwl
        simp only [hk2, if_pos, if_true, List.tail_cons, textConcat_token,
          textConcat_nil, srcConcat_cons, hut, ht, String.append_empty]
        rw [← String.append_assoc]
        rfl
      · rw [if_neg hk2]
        split_ifs <;> simp_all [String.append_empty]
  case pound =>
    have ht : t = "#" := by simpa [wellLexedTok] using h1
    simp only [step]
    by_cases hk : headKind rest = some TokenKind.bang
    · obtain ⟨u, rest', rfl, hu⟩ := headKind_some hk
      have hut : u.text = "!" := by
        have hwl : wellLexedTok u = true := by
          simp only [List.all_cons, Bool.and_eq_true] at h2
          exact h2.1
        simpa [wellLexedTok, hu] using hwl
      rw [if_pos hk]
      have hx : ∀ X : Str, "#" ++ ("!" ++ X) = "#!" ++ X := by
        intro X
        rw [← String.append_assoc]
        rfl
      split_ifs <;>
        simp_all [srcConcat_cons, String.append_empty, String.append_assoc, hx]
    · rw [if_neg hk]
      split_ifs <;> simp_all [String.append_empty]
  case closeBracket =>
    have ht : t = "]" := by simpa [wellLexedTok] using h1
    simp only [step]
    split_ifs <;> simp_all [String.append_empty]
  all_goals simp only [step]
  all_goals
    repeat first
      | (split_ifs)
      | (split)
  all_goals simp_all [String.append_empty]

theorem WellLexed_rest {tok : Tok} {rest : List Tok}
    (h : WellLexed (tok :: rest)) (b : Bool) :
    WellLexed (if b then rest.tail else rest) := by
  simp only [WellLexed, List.all_cons, Bool.and_eq_true] at h
  cases b with
  | false => exact h.2
  | true =>
      cases rest with
      | nil => rfl
      | cons u r =>
          simp only [WellLexed, List.all_cons, Bool.and_eq_true] at h
          exact h.2.2

/-- Whole-run text preservation. -/
theorem runFrom_text :
    ∀ (n : Nat) (toks : List Tok) (c : Classifier), toks.length ≤ n →
      WellLexed toks → textConcat (runFrom c toks) = srcConcat toks := by
  intro n
  induction n with
  | zero =>
      intro toks c h _
      have htoks : toks = [] := List.length_eq_zero.mp (Nat.le_zero.mp h)
      subst htoks
      rfl
  | succ n ih =>
      intro toks c h hw
      match toks with
      | [] => rfl
      | tok :: rest =>
          rw [runFrom_cons, textConcat_append]
          have hlen : (if (step c tok rest).2.1 then rest.tail
              else rest).length ≤ n := by
            have hb := length_if_tail_le (step c tok rest).2.1 rest
            have hr : rest.length ≤ n := by simpa using Nat.succ_le_succ_iff.mp h
            omega
          have hw' : wellLexedTok tok = true ∧ rest.all wellLexedTok = true := by
            simpa only [WellLexed, List.all_cons, Bool.and_eq_true] using hw
          have hw1 := hw'.1
          have hw2 := hw'.2
          rw [ih _ (step c tok rest).1 hlen (WellLexed_rest hw _)]
          rw [step_text c tok rest hw1 hw2, srcConcat_cons]

theorem SimilarEvent_refl (a : Highlight) : SimilarEvent a a := Or.inl rfl

theorem forall2_similar_refl (l : List Highlight) :
    List.Forall₂ SimilarEvent l l := by
  induction l with
  | nil => exact List.Forall₂.nil
  | cons a l ih => exact List.Forall₂.cons (SimilarEvent_refl a) ih

/-- Two classifier states agreeing on `in_attribute` and `in_macro` (their
editions and `in_macro_nonterminal` flags may differ) take the same branch
everywhere except in the identifier-text dispatch: the steps consume the
same tokens, keep `in_attribute`/`in_macro` in agreement, and emit
pointwise-similar events (identical up to the class of an identifier
token). -/
theorem step_similar (c1 c2 : Classifier) (tok : Tok) (rest : List Tok)
    (hA : c1.inAttribute = c2.inAttribute)
    (hM : c1.inMacro = c2.inMacro) :
    (step c1 tok rest).2.1 = (step c2 tok rest).2.1
    ∧ (step c1 tok rest).1.inAttribute = (step c2 tok rest).1.inAttribute
    ∧ (step c1 tok rest).1.inMacro = (step c2 tok rest).1.inMacro
    ∧ List.Forall₂ SimilarEvent (step c1 tok rest).2.2
        (step c2 tok rest).2.2 := by
  obtain ⟨k, t⟩ := tok
  cases k
  all_goals simp only [step, hA, hM]
  all_goals
    repeat first
      | (split_ifs)
      | (split)
  all_goals
    refine ⟨by first | rfl | trivial,
      by first | simp [hA] | trivial,
      by first | simp [hM] | trivial, ?_⟩
  all_goals
    first
    | exact forall2_similar_refl _
    | exact List.Forall₂.cons
        (Or.inr ⟨t, _, _, by simp, by simp, rfl, rfl⟩) List.Forall₂.nil

theorem forall2_similar_append {a b c d : List Highlight}
    (h1 : List.Forall₂ SimilarEvent a c)
    (h2 : List.Forall₂ SimilarEvent b d) :
    List.Forall₂ SimilarEvent (a ++ b) (c ++ d) := by
  induction h1 with
  | nil => exact h2
  | cons hx _ ih => exact List.Forall₂.cons hx ih

/-- Two runs of the classifier from states agreeing on `in_attribute` and
`in_macro` produce pointwise-similar event sequences. -/
theorem runFrom_similar :
    ∀ (n : Nat) (toks : List Tok) (c1 c2 : Classifier), toks.length ≤ n →
      c1.inAttribute = c2.inAttribute → c1.inMacro = c2.inMacro →
      List.Forall₂ SimilarEvent (runFrom c1 toks) (runFrom c2 toks) := by
  intro n
  induction n with
  | zero =>
      intro toks c1 c2 h _ _
      have htoks : toks = [] := List.length_eq_zero.mp (Nat.le_zero.mp h)
      subst htoks
      exact List.Forall₂.nil
  | succ n ih =>
      intro toks c1 c2 h hA hM
      match toks with
      | [] => exact List.Forall₂.nil
      | tok :: rest =>
          rw [runFrom_cons, runFrom_cons]
          obtain ⟨hb, hA', hM', hsim⟩ := step_similar c1 c2 tok rest hA hM
          rw [← hb]
          have hlen : (if (step c1 tok rest).2.1 then rest.tail
              else rest).length ≤ n := by
            have h1 := length_if_tail_le (step c1 tok rest).2.1 rest
            have h2 : rest.length ≤ n := by simpa using Nat.succ_le_succ_iff.mp h
            omega
          exact forall2_similar_append hsim
            (ih _ (step c1 tok rest).1 (step c2 tok rest).1 hlen hA' hM')

/-- Refined consumption lemma: a step consumes an extra token exactly in
the `&&`/`&=` case (current token `&`) or the `#`/`!` case (current token
`#`). -/
theorem step_consumed_kinds (c : Classifier) (tok : Tok) (rest : List Tok)
    (h : (step c tok rest).2.1 = true) :
    (tok.kind = TokenKind.and ∧
      (headKind rest = some TokenKind.and ∨ headKind rest = some TokenKind.eq))
    ∨ (tok.kind = TokenKind.pound ∧ headKind rest = some TokenKind.bang) := by
  obtain ⟨k, t⟩ := tok
  cases k
  case and =>
    simp only [step] at h
    by_cases hk : headKind rest = some TokenKind.and
    · exact Or.inl ⟨rfl, Or.inl hk⟩
    · rw [if_neg hk] at h
      by_cases hk2 : headKind rest = some TokenKind.eq
      · exact Or.inl ⟨rfl, Or.inr hk2⟩
      · rw [if_neg hk2] at h
        split_ifs at h <;> simp at h
  case pound =>
    simp only [step] at h
    by_cases hk : headKind rest = some TokenKind.bang
    · exact Or.inr ⟨rfl, hk⟩
    · rw [if_neg hk] at h
      split_ifs at h <;> simp at h
  all_goals
    simp only [step] at h
  all_goals
    repeat first
      | (split_ifs at h)
      | (split at h)
  all_goals
    simp at h

/-- A `]` seen while `in_attribute` is set: clear the flag, emit the `]`
with no class, then `ExitSpan`. -/
theorem step_closeBracket_true (c : Classifier) (t : String)
    (rest : List Tok) (h : c.inAttribute = true) :
    step c ⟨TokenKind.closeBracket, t⟩ rest =
      ({ c with inAttribute := false }, false,
       [Highlight.Token "]" none, Highlight.ExitSpan]) := by
  simp [step, h]

/-- A step at a token that is neither `#` nor a flag-consuming `]` emits no
span events and leaves `in_attribute` unchanged. -/
theorem step_flag_preserved (c : Classifier) (tok : Tok) (rest : List Tok)
    (hp : tok.kind ≠ TokenKind.pound)
    (hnc : ¬(tok.kind = TokenKind.closeBracket ∧ c.inAttribute = true)) :
    countEnter (step c tok rest).2.2 = 0
    ∧ countExit (step c tok rest).2.2 = 0
    ∧ (step c tok rest).1.inAttribute = c.inAttribute := by
  rcases step_shape c tok rest with
    ⟨x, y, hev, hfl⟩ | ⟨hev, hfl, hk⟩ | ⟨_, _, hk⟩ | ⟨hev, hfl, hc, hk⟩
  · exact ⟨by simp [hev, countEnter], by simp [hev, countExit], hfl⟩
  · exact absurd hk hp
  · exact absurd hk hp
  · exact absurd ⟨hk, hc⟩ hnc

theorem containsClose_cons (u : Tok) (r : List Tok) :
    containsClose (u :: r) =
      ((u.kind == TokenKind.closeBracket) || containsClose r) := by
  simp [containsClose, List.any_cons]

theorem containsClose_append (a b : List Tok) :
    containsClose (a ++ b) = (containsClose a || containsClose b) := by
  simp [containsClose, List.any_append]

theorem PoundFree_cons_iff (u : Tok) (r : List Tok) :
    PoundFree (u :: r) ↔ u.kind ≠ TokenKind.pound ∧ PoundFree r := by
  constructor
  · intro h
    exact ⟨h u (by simp), fun t ht => h t (List.mem_cons_of_mem _ ht)⟩
  · rintro ⟨hu, hr⟩ t ht
    rcases List.mem_cons.mp ht with rfl | ht'
    · exact hu
    · exact hr t ht'

theorem PoundFree_append (a b : List Tok) (ha : PoundFree a)
    (hb : PoundFree b) : PoundFree (a ++ b) := by
  intro t ht
  rcases List.mem_append.mp ht with h | h
  · exact ha t h
  · exact hb t h

/-- Running the classifier through a `#`-free segment `pre` (with the
continuation `rest` not beginning with a mergeable `&`/`=`): the segment
emits no `EnterSpan`, emits exactly one `ExitSpan` iff the attribute flag
was set and `pre` contains a `]`, and the flag afterwards is set iff it was
set and `pre` contains no `]`. -/
theorem runFrom_poundfree_append :
    ∀ (n : Nat) (pre : List Tok) (c : Classifier) (rest : List Tok),
      pre.length ≤ n → PoundFree pre →
      headKind rest ≠ some TokenKind.and →
      headKind rest ≠ some TokenKind.eq →
      ∃ evs c',
        runFrom c (pre ++ rest) = evs ++ runFrom c' rest
        ∧ countEnter evs = 0
        ∧ countExit evs =
            (if c.inAttribute = true ∧ containsClose pre = true then 1 else 0)
        ∧ c'.inAttribute = (c.inAttribute && !containsClose pre) := by
  intro n
  induction n with
  | zero =>
      intro pre c rest h hpf h1 h2
      have hpre : pre = [] := List.length_eq_zero.mp (Nat.le_zero.mp h)
      subst hpre
      exact ⟨[], c, by simp, by simp [countEnter],
        by simp [countExit, containsClose], by simp [containsClose]⟩
  | succ n ih =>
      intro pre c rest h hpf h1 h2
      match pre with
      | [] =>
          exact ⟨[], c, by simp, by simp [countEnter],
            by simp [countExit, containsClose], by simp [containsClose]⟩
      | tok :: pre' =>
          obtain ⟨hknp, hpf'⟩ := (PoundFree_cons_iff tok pre').mp hpf
          have hlen : pre'.length ≤ n := by simpa using Nat.succ_le_succ_iff.mp h
          rw [List.cons_append, runFrom_cons]
          by_cases hb : (step c tok (pre' ++ rest)).2.1 = true
          · rcases step_consumed_kinds c tok (pre' ++ rest) hb with
              ⟨hand, hh⟩ | ⟨hpk, _⟩
            · match pre' with
              | [] =>
                  simp only [List.nil_append] at hh
                  rcases hh with hh | hh
                  · exact absurd hh h1
                  · exact absurd hh h2
              | w :: pre'' =>
                  have hw : w.kind = TokenKind.and ∨ w.kind = TokenKind.eq := by
                    rcases hh with hh | hh
                    · exact Or.inl (by simpa [headKind] using hh)
                    · exact Or.inr (by simpa [headKind] using hh)
                  have hfp := step_flag_preserved c tok (w :: (pre'' ++ rest))
                    (by rw [hand]; simp) (by rw [hand]; simp)
                  have hlen'' : pre''.length ≤ n := by
                    simp only [List.length_cons] at hlen
                    omega
                  have hpf'' : PoundFree pre'' :=
                    ((PoundFree_cons_iff w pre'').mp hpf').2
                  obtain ⟨evs, c', heq, hE, hX, hF⟩ :=
                    ih pre'' (step c tok (w :: (pre'' ++ rest))).1 rest
                      hlen'' hpf'' h1 h2
                  refine ⟨(step c tok (w :: (pre'' ++ rest))).2.2 ++ evs, c',
                    ?_, ?_, ?_, ?_⟩
                  · rw [if_pos hb]
                    simp only [List.cons_append, List.tail_cons]
                    rw [heq, List.append_assoc]
                  · rw [countEnter_append, hE, hfp.1]
                  · rw [countExit_append, hfp.2.1, hX, hfp.2.2]
                    rcases hw with hw | hw <;>
                      simp [containsClose_cons, hand, hw,
                        (show (TokenKind.and == TokenKind.closeBracket) = false
                          from rfl),
                        (show (TokenKind.eq == TokenKind.closeBracket) = false
                          from rfl)]
                  · rw [hF, hfp.2.2]
                    rcases hw with hw | hw <;>
                      simp [containsClose_cons, hand, hw,
                        (show (TokenKind.and == TokenKind.closeBracket) = false
                          from rfl),
                        (show (TokenKind.eq == TokenKind.closeBracket) = false
                          from rfl)]
            · exact absurd hpk (hpf tok (by simp))
          · rw [if_neg hb]
            by_cases hcb : tok.kind = TokenKind.closeBracket ∧
                c.inAttribute = true
            · obtain ⟨hk, hA⟩ := hcb
              obtain ⟨k0, t0⟩ := tok
              simp only at hk
              subst hk
              have hstep := step_closeBracket_true c t0 (pre' ++ rest) hA
              obtain ⟨evs, c', heq, hE, hX, hF⟩ :=
                ih pre' { c with inAttribute := false } rest hlen hpf' h1 h2
              refine ⟨[Highlight.Token "]" none, Highlight.ExitSpan] ++ evs,
                c', ?_, ?_, ?_, ?_⟩
              · rw [hstep]
                simp only
                rw [heq, List.append_assoc]
              · rw [countEnter_append, hE]
                simp [countEnter]
              · rw [countExit_append, hX]
                simp [countExit, containsClose_cons, hA]
              · rw [hF]
                simp [containsClose_cons, hA]
            · have hfp := step_flag_preserved c tok (pre' ++ rest) hknp hcb
              obtain ⟨evs, c', heq, hE, hX, hF⟩ :=
                ih pre' (step c tok (pre' ++ rest)).1 rest hlen hpf' h1 h2
              have hknc : c.inAttribute = true →
                  (tok.kind == TokenKind.closeBracket) = false := by
                intro hA
                rcases hkc : tok.kind == TokenKind.closeBracket
                · rfl
                · exact absurd ⟨by simpa using hkc, hA⟩ hcb
              refine ⟨(step c tok (pre' ++ rest)).2.2 ++ evs, c',
                ?_, ?_, ?_, ?_⟩
              · rw [heq, List.append_assoc]
              · rw [countEnter_append, hE, hfp.1]
              · rw [countExit_append, hfp.2.1, hX, hfp.2.2]
                rcases hA : c.inAttribute
                · simp
                · simp [containsClose_cons, hknc hA]
              · rw [hF, hfp.2.2]
                rcases hA : c.inAttribute
                · simp
                · simp [containsClose_cons, hknc hA]

/-- A `#`-free token list run to exhaustion: no `EnterSpan`; exactly one
`ExitSpan` iff the flag was set and the list contains a `]`. -/
theorem runFrom_poundfree (toks : List Tok) (c : Classifier)
    (hpf : PoundFree toks) :
    countEnter (runFrom c toks) = 0
    ∧ countExit (runFrom c toks) =
        (if c.inAttribute = true ∧ containsClose toks = true then 1
         else 0) := by
  obtain ⟨evs, c', heq, hE, hX, _⟩ :=
    runFrom_poundfree_append toks.length toks c [] (Nat.le_refl _) hpf
      (by simp [headKind]) (by simp [headKind])
  rw [runFrom_nil, List.append_nil, List.append_nil] at heq
  rw [heq]
  exact ⟨hE, hX⟩

/-- A `!` seen while `in_macro` is set is classified `Macro` and clears
the flag, consuming nothing. -/
theorem step_bang_true (c : Classifier) (t : String) (rest : List Tok)
    (h : c.inMacro = true) :
    step c ⟨TokenKind.bang, t⟩ rest =
      ({ c with inMacro := false }, false,
       [Highlight.Token t (some Class.Macro)]) := by
  simp [step, h]

/-- The only step that raises `in_macro` is an identifier or raw identifier
whose lookahead is `!`; that step emits a single `Macro`-classed token and
consumes nothing. -/
theorem step_sets_inMacro (c : Classifier) (tok : Tok) (rest : List Tok)
    (hf : c.inMacro = false) (h : (step c tok rest).1.inMacro = true) :
    (tok.kind = TokenKind.ident ∨ tok.kind = TokenKind.rawIdent)
    ∧ (step c tok rest).2.2 = [Highlight.Token tok.text (some Class.Macro)]
    ∧ headKind rest = some TokenKind.bang
    ∧ (step c tok rest).2.1 = false := by
  obtain ⟨k, t⟩ := tok
  cases k
  all_goals simp only [step] at h ⊢
  all_goals
    repeat first
      | (split_ifs at h ⊢)
      | (split at h ⊢)
  all_goals simp_all

/-- Along any run started with `in_macro` clear, every configuration with
`in_macro` set has a `!` token at the head of its remaining stream. -/
theorem reach_inMacro_bang (a b : Classifier × List Tok)
    (h : Reach a b) (ha : a.1.inMacro = false) :
    b.1.inMacro = true →
    ∃ t rest2, b.2 = ⟨TokenKind.bang, t⟩ :: rest2 := by
  induction h with
  | refl =>
      intro hM
      rw [ha] at hM
      exact absurd hM (by simp)
  | tail c tok rest h ih =>
      intro hM'
      by_cases hM : c.inMacro = true
      · obtain ⟨t0, r0, heq⟩ := ih hM
        have heq' : tok :: rest = ⟨TokenKind.bang, t0⟩ :: r0 := heq
        injection heq' with hh1 hh2
        rw [hh1, step_bang_true c t0 rest hM] at hM'
        exact absurd hM' (by simp)
      · obtain ⟨hk, hev, hhd, hb⟩ :=
          step_sets_inMacro c tok rest (by simpa using hM) hM'
        obtain ⟨u, rest', rfl, hu⟩ := headKind_some hhd
        obtain ⟨ku, tu⟩ := u
        simp only at hu
        subst hu
        exact ⟨tu, rest', by simp [hb]⟩

/-! ## Claim theorems -/

/-- C1: for every (well-lexed) input token stream, concatenating the `text`
fields of all `Token` events emitted by `highlight`, in emission order,
yields exactly the concatenation of the source token texts — i.e. the
original input text, since the lexer's slices cover the input with no gaps;
`EnterSpan`/`ExitSpan` events carry no text and do not affect this
reconstruction (this covers the merged `&&`/`&=` emissions and the
re-emitted `#`, `!`, `]` texts). -/
theorem claim_C1_lossless (toks : List Tok) (ed : Edition)
    (h : WellLexed toks) :
    textConcat (highlight toks ed) = srcConcat toks :=
  runFrom_text toks.length toks (Classifier.new ed) (Nat.le_refl _) h

theorem claim_C1_lossless_witness :
    WellLexed
      [⟨TokenKind.pound, "#"⟩, ⟨TokenKind.openBracket, "["⟩,
       ⟨TokenKind.ident, "derive"⟩, ⟨TokenKind.openParen, "("⟩,
       ⟨TokenKind.ident, "Debug"⟩, ⟨TokenKind.closeParen, ")"⟩,
       ⟨TokenKind.closeBracket, "]"⟩, ⟨TokenKind.whitespace, " "⟩,
       ⟨TokenKind.ident, "a"⟩, ⟨TokenKind.whitespace, " "⟩,
       ⟨TokenKind.and, "&"⟩, ⟨TokenKind.and, "&"⟩,
       ⟨TokenKind.whitespace, " "⟩, ⟨TokenKind.ident, "b"⟩] ∧
    textConcat (highlight
      [⟨TokenKind.pound, "#"⟩, ⟨TokenKind.openBracket, "["⟩,
       ⟨TokenKind.ident, "derive"⟩, ⟨TokenKind.openParen, "("⟩,
       ⟨TokenKind.ident, "Debug"⟩, ⟨TokenKind.closeParen, ")"⟩,
       ⟨TokenKind.closeBracket, "]"⟩, ⟨TokenKind.whitespace, " "⟩,
       ⟨TokenKind.ident, "a"⟩, ⟨TokenKind.whitespace, " "⟩,
       ⟨TokenKind.and, "&"⟩, ⟨TokenKind.and, "&"⟩,
       ⟨TokenKind.whitespace, " "⟩, ⟨TokenKind.ident, "b"⟩] Edition.e2015) =
    srcConcat
      [⟨TokenKind.pound, "#"⟩, ⟨TokenKind.openBracket, "["⟩,
       ⟨TokenKind.ident, "derive"⟩, ⟨TokenKind.openParen, "("⟩,
       ⟨TokenKind.ident, "Debug"⟩, ⟨TokenKind.closeParen, ")"⟩,
       ⟨TokenKind.closeBracket, "]"⟩, ⟨TokenKind.whitespace, " "⟩,
       ⟨TokenKind.ident, "a"⟩, ⟨TokenKind.whitespace, " "⟩,
       ⟨TokenKind.and, "&"⟩, ⟨TokenKind.and, "&"⟩,
       ⟨TokenKind.whitespace, " "⟩, ⟨TokenKind.ident, "b"⟩] :=
  ⟨by unfold WellLexed; decide,
   claim_C1_lossless _ Edition.e2015 (by unfold WellLexed; decide)⟩

/-- C2 (counterexample): on the token stream of `"#[#["` the classifier
emits two `EnterSpan(Attribute)` events with no intervening `ExitSpan`, so
the observed nesting depth reaches 2 — refuting the claim that the depth is
always 0 or 1. -/
theorem claim_C2_counterexample :
    ¬ DepthLE1 (highlight
      [⟨TokenKind.pound, "#"⟩, ⟨TokenKind.openBracket, "["⟩,
       ⟨TokenKind.pound, "#"⟩, ⟨TokenKind.openBracket, "["⟩]
      Edition.e2015) := by
  intro h
  have h2 := h _ [] (List.append_nil _).symm
  revert h2
  decide

/-- C2 (amended): the nesting depth observed over the emitted event
sequence never goes negative (an `ExitSpan` is never emitted without a
prior unmatched `EnterSpan`); and whenever the input contains at most one
`#` token — so that no attribute opener can occur while a previous span is
still open — the depth is always 0 or 1. The original bound fails only when
a new `#[`/`#![` opener is reached while an earlier `EnterSpan` is still
unmatched. -/
theorem claim_C2_amended :
    (∀ (toks : List Tok) (ed : Edition), DepthNonneg (highlight toks ed))
    ∧ (∀ (toks : List Tok) (ed : Edition), countPound toks ≤ 1 →
        DepthLE1 (highlight toks ed)) := by
  constructor
  · intro toks ed p q hpq
    have h := runFrom_depth_bound toks.length toks (Classifier.new ed)
      (Nat.le_refl _) p q hpq
    simpa [attrBudget, Classifier.new] using h
  · intro toks ed hp p q hpq
    simp only [highlight] at hpq
    have h1 := runFrom_enter_le_pound toks.length toks (Classifier.new ed)
      (Nat.le_refl _)
    have h2 : countEnter p ≤ countEnter (runFrom (Classifier.new ed) toks) := by
      rw [hpq]
      exact countEnter_prefix_le p q
    omega

theorem claim_C2_amended_witness :
    DepthNonneg (highlight
      [⟨TokenKind.pound, "#"⟩, ⟨TokenKind.openBracket, "["⟩,
       ⟨TokenKind.ident, "foo"⟩, ⟨TokenKind.closeBracket, "]"⟩]
      Edition.e2015)
    ∧ DepthLE1 (highlight
        [⟨TokenKind.pound, "#"⟩, ⟨TokenKind.openBracket, "["⟩,
         ⟨TokenKind.ident, "foo"⟩, ⟨TokenKind.closeBracket, "]"⟩]
        Edition.e2018) :=
  ⟨claim_C2_amended.1 _ _, claim_C2_amended.2 _ _ (by decide)⟩

/-- C3 (counterexample): on the token stream of `"#!x"` — a `#` whose
lookahead is `!` but where the token after the `!` is not `[` — the
classifier does **not** emit only the `#`: it consumes the `!` and emits it
with no class, so no `!` classified Operator ever appears. -/
theorem claim_C3_counterexample :
    highlight [⟨TokenKind.pound, "#"⟩, ⟨TokenKind.bang, "!"⟩,
        ⟨TokenKind.ident, "x"⟩] Edition.e2015 =
      [Highlight.Token "#" none, Highlight.Token "!" none,
       Highlight.Token "x" (some Class.Ident)]
    ∧ Highlight.Token "!" (some Class.Op) ∉
        highlight [⟨TokenKind.pound, "#"⟩, ⟨TokenKind.bang, "!"⟩,
          ⟨TokenKind.ident, "x"⟩] Edition.e2015
    ∧ (step (Classifier.new Edition.e2015) ⟨TokenKind.pound, "#"⟩
        [⟨TokenKind.bang, "!"⟩, ⟨TokenKind.ident, "x"⟩]).2.1 = true := by
  refine ⟨by decide, by decide, by decide⟩

/-- C3 (amended): a `#` whose lookahead is `!` always consumes the `!` and
emits `#` and `!` each with no class, preceded by `EnterSpan(Attribute)`
(and setting `in_attribute`) exactly when the token after the `!` is `[`;
a `#` whose lookahead is neither `!` nor `[` emits only the `#` token with
no class and consumes no additional token. -/
theorem claim_C3_amended (c : Classifier) (t : String) (rest : List Tok) :
    (headKind rest = some TokenKind.bang →
      step c ⟨TokenKind.pound, t⟩ rest =
        (if headKind rest.tail = some TokenKind.openBracket then
          ({ c with inAttribute := true }, true,
           [Highlight.EnterSpan Class.Attribute, Highlight.Token "#" none,
            Highlight.Token "!" none])
        else
          (c, true, [Highlight.Token "#" none, Highlight.Token "!" none])))
    ∧ (headKind rest ≠ some TokenKind.bang →
       headKind rest ≠ some TokenKind.openBracket →
       step c ⟨TokenKind.pound, t⟩ rest =
        (c, false, [Highlight.Token t none])) := by
  constructor
  · intro hb
    simp only [step]
    rw [if_pos hb]
  · intro hb ho
    simp only [step]
    rw [if_neg hb, if_neg ho]

theorem claim_C3_amended_witness :
    step (Classifier.new Edition.e2015) ⟨TokenKind.pound, "#"⟩
        [⟨TokenKind.bang, "!"⟩, ⟨TokenKind.ident, "x"⟩] =
      (Classifier.new Edition.e2015, true,
       [Highlight.Token "#" none, Highlight.Token "!" none])
    ∧ step (Classifier.new Edition.e2015) ⟨TokenKind.pound, "#"⟩
        [⟨TokenKind.semi, ";"⟩] =
      (Classifier.new Edition.e2015, false, [Highlight.Token "#" none]) := by
  constructor
  · have h := (claim_C3_amended (Classifier.new Edition.e2015) "#"
      [⟨TokenKind.bang, "!"⟩, ⟨TokenKind.ident, "x"⟩]).1 (by decide)
    rw [h]
    decide
  · exact (claim_C3_amended (Classifier.new Edition.e2015) "#"
      [⟨TokenKind.semi, ";"⟩]).2 (by decide) (by decide)

/-- C4 (counterexample): on the token stream of `"$self"` the `$` is
emitted `MacroNonTerminal` and sets `in_macro_nonterminal`, but the
following identifier `self` is emitted with class `Self_` (SelfIdent), not
`MacroNonTerminal` — and the flag is not cleared by such a step. -/
theorem claim_C4_counterexample :
    highlight [⟨TokenKind.dollar, "$"⟩, ⟨TokenKind.ident, "self"⟩]
        Edition.e2015 =
      [Highlight.Token "$" (some Class.MacroNonTerminal),
       Highlight.Token "self" (some Class.Self_)]
    ∧ Highlight.Token "self" (some Class.MacroNonTerminal) ∉
        highlight [⟨TokenKind.dollar, "$"⟩, ⟨TokenKind.ident, "self"⟩]
          Edition.e2015
    ∧ (step ⟨false, false, true, Edition.e2015⟩
        ⟨TokenKind.ident, "self"⟩ []).1.inMacroNonterminal = true := by
  refine ⟨by decide, by decide, by decide⟩

/-- C4 (amended): an identifier following `$` (flag set) is emitted with
class `MacroNonTerminal` and the flag is cleared provided its lookahead is
not `!`, its text is none of the special-cased names
(ref/mut/self/Self/false/true/Option/Result/Some/None/Ok/Err), and it is
not reserved under the active edition; otherwise the earlier rule for that
identifier applies and the flag is cleared only when the emitted class is
`MacroNonTerminal`. -/
theorem claim_C4_amended :
    (∀ (c : Classifier) (t : String) (rest : List Tok),
      c.inMacroNonterminal = true →
      headKind rest ≠ some TokenKind.bang →
      t ≠ "ref" → t ≠ "mut" → t ≠ "self" → t ≠ "Self" →
      t ≠ "false" → t ≠ "true" → t ≠ "Option" → t ≠ "Result" →
      t ≠ "Some" → t ≠ "None" → t ≠ "Ok" → t ≠ "Err" →
      is_reserved t c.edition = false →
      step c ⟨TokenKind.ident, t⟩ rest =
        ({ c with inMacroNonterminal := false }, false,
         [Highlight.Token t (some Class.MacroNonTerminal)]))
    ∧ (∀ (c : Classifier) (t : String) (rest : List Tok),
        c.inMacroNonterminal = true →
        ((step c ⟨TokenKind.ident, t⟩ rest).1.inMacroNonterminal = true ∨
         (step c ⟨TokenKind.ident, t⟩ rest).2.2 =
           [Highlight.Token t (some Class.MacroNonTerminal)])) := by
  constructor
  · intro c t rest hf hb h1 h2 h3 h4 h5 h6 h7 h8 h9 h10 h11 h12 hres
    simp only [step]
    split_ifs <;> simp_all
  · intro c t rest hf
    simp only [step]
    split_ifs <;> simp_all

theorem claim_C4_amended_witness :
    step ⟨false, false, true, Edition.e2015⟩ ⟨TokenKind.ident, "x"⟩ [] =
      (⟨false, false, false, Edition.e2015⟩, false,
       [Highlight.Token "x" (some Class.MacroNonTerminal)])
    ∧ ((step ⟨false, false, true, Edition.e2015⟩
          ⟨TokenKind.ident, "self"⟩ []).1.inMacroNonterminal = true ∨
       (step ⟨false, false, true, Edition.e2015⟩
          ⟨TokenKind.ident, "self"⟩ []).2.2 =
         [Highlight.Token "self" (some Class.MacroNonTerminal)]) := by
  constructor
  · exact claim_C4_amended.1 ⟨false, false, true, Edition.e2015⟩ "x" []
      rfl (by decide) (by decide) (by decide) (by decide) (by decide)
      (by decide) (by decide) (by decide) (by decide) (by decide)
      (by decide) (by decide) (by decide) (by decide)
  · exact claim_C4_amended.2 ⟨false, false, true, Edition.e2015⟩ "self" [] rfl

/-- C5 (counterexample): editions can influence more than the tokens whose
reserved status differs. On the token stream of `"$async x"`, `async` is
reserved in 2018 but not 2015; under 2015 the `async` identifier consumes
the pending `in_macro_nonterminal` flag, under 2018 it does not (the
keyword arm precedes the flag arm and does not clear it) — so the later
identifier `x`, whose reserved status is the same under both editions, is
classified `MacroNonTerminal` under 2018 but `Ident` under 2015. -/
theorem claim_C5_counterexample :
    (highlight [⟨TokenKind.dollar, "$"⟩, ⟨TokenKind.ident, "async"⟩,
        ⟨TokenKind.whitespace, " "⟩, ⟨TokenKind.ident, "x"⟩]
        Edition.e2018).get? 3 =
      some (Highlight.Token "x" (some Class.MacroNonTerminal))
    ∧ (highlight [⟨TokenKind.dollar, "$"⟩, ⟨TokenKind.ident, "async"⟩,
        ⟨TokenKind.whitespace, " "⟩, ⟨TokenKind.ident, "x"⟩]
        Edition.e2015).get? 3 =
      some (Highlight.Token "x" (some Class.Ident))
    ∧ is_reserved "x" Edition.e2018 = is_reserved "x" Edition.e2015 := by
  refine ⟨by decide, by decide, by decide⟩

/-- C5 (amended): for every input and every pair of editions, the two event
sequences have the same length and corresponding events are identical,
except possibly `Token` events (with identical text) whose classes are
drawn from the edition-sensitive identifier classes `KeyWord`,
`MacroNonTerminal`, `Ident`; all span events and all other token events are
identical across the two runs. -/
theorem claim_C5_amended (toks : List Tok) (e1 e2 : Edition) :
    List.Forall₂ SimilarEvent (highlight toks e1) (highlight toks e2) :=
  runFrom_similar toks.length toks (Classifier.new e1) (Classifier.new e2)
    (Nat.le_refl _) rfl rfl

/-- C6: a `*` token is classified `Op` when the lookahead is whitespace and
`RefKeyWord` otherwise; a `&` followed by `&` (resp. `=`) consumes both
tokens and emits the single `Token` `"&&"` (resp. `"&="`) with class `Op`;
a `&` followed by whitespace is `Op`; a `&` in any other context is
`RefKeyWord`. -/
theorem claim_C6_star_amp (c : Classifier) (t : String) (rest : List Tok) :
    step c ⟨TokenKind.star, t⟩ rest =
      (c, false, [Highlight.Token t
        (some (if headKind rest = some TokenKind.whitespace then Class.Op
               else Class.RefKeyWord))])
    ∧ step c ⟨TokenKind.and, t⟩ rest =
        (if headKind rest = some TokenKind.and then
          (c, true, [Highlight.Token "&&" (some Class.Op)])
        else if headKind rest = some TokenKind.eq then
          (c, true, [Highlight.Token "&=" (some Class.Op)])
        else if headKind rest = some TokenKind.whitespace then
          (c, false, [Highlight.Token t (some Class.Op)])
        else (c, false, [Highlight.Token t (some Class.RefKeyWord)])) := by
  constructor
  · simp only [step]
    split_ifs <;> rfl
  · simp only [step]

/-- C7 (counterexample): an input containing a complete `#[a]` construct
followed by a truncated `#[b` opener emits 2 `EnterSpan(Attribute)` events
but only 1 `ExitSpan`, refuting the universally quantified equality. -/
theorem claim_C7_counterexample :
    ContainsCompleteAttr
      [⟨TokenKind.pound, "#"⟩, ⟨TokenKind.openBracket, "["⟩,
       ⟨TokenKind.ident, "a"⟩, ⟨TokenKind.closeBracket, "]"⟩,
       ⟨TokenKind.whitespace, " "⟩, ⟨TokenKind.pound, "#"⟩,
       ⟨TokenKind.openBracket, "["⟩, ⟨TokenKind.ident, "b"⟩]
    ∧ countEnter (highlight
        [⟨TokenKind.pound, "#"⟩, ⟨TokenKind.openBracket, "["⟩,
         ⟨TokenKind.ident, "a"⟩, ⟨TokenKind.closeBracket, "]"⟩,
         ⟨TokenKind.whitespace, " "⟩, ⟨TokenKind.pound, "#"⟩,
         ⟨TokenKind.openBracket, "["⟩, ⟨TokenKind.ident, "b"⟩]
        Edition.e2015) = 2
    ∧ countExit (highlight
        [⟨TokenKind.pound, "#"⟩, ⟨TokenKind.openBracket, "["⟩,
         ⟨TokenKind.ident, "a"⟩, ⟨TokenKind.closeBracket, "]"⟩,
         ⟨TokenKind.whitespace, " "⟩, ⟨TokenKind.pound, "#"⟩,
         ⟨TokenKind.openBracket, "["⟩, ⟨TokenKind.ident, "b"⟩]
        Edition.e2015) = 1 := by
  refine ⟨?_, by decide, by decide⟩
  refine ⟨[], [⟨TokenKind.pound, "#"⟩, ⟨TokenKind.openBracket, "["⟩],
    [⟨TokenKind.ident, "a"⟩],
    ⟨TokenKind.closeBracket, "]"⟩ ::
      [⟨TokenKind.whitespace, " "⟩, ⟨TokenKind.pound, "#"⟩,
       ⟨TokenKind.openBracket, "["⟩, ⟨TokenKind.ident, "b"⟩],
    by decide, Or.inl ⟨"#", "[", rfl⟩, by decide,
    ⟨"]", _, rfl⟩⟩

/-- C7 (amended): for every input decomposable as a `#`-free prefix, a
`#[` or `#![` opener, a `#`-free interior, a closing `]` and a `#`-free
suffix, the run emits exactly one `EnterSpan(Attribute)` and exactly one
`ExitSpan` — in particular the two counts are equal. The original claim
fails only when a further `#` opener occurs elsewhere in the input (as in
the counterexample, where a second truncated opener adds an unmatched
`EnterSpan`). -/
theorem claim_C7_amended (ed : Edition) (pre mid post opener : List Tok)
    (tc : String)
    (hpre : PoundFree pre) (hmid : PoundFree mid) (hpost : PoundFree post)
    (hop : (∃ t1 t2, opener =
        [⟨TokenKind.pound, t1⟩, ⟨TokenKind.openBracket, t2⟩])
      ∨ (∃ t1 t2 t3, opener =
        [⟨TokenKind.pound, t1⟩, ⟨TokenKind.bang, t2⟩,
         ⟨TokenKind.openBracket, t3⟩])) :
    countEnter (highlight (pre ++ opener ++ mid ++
        ⟨TokenKind.closeBracket, tc⟩ :: post) ed) = 1
    ∧ countExit (highlight (pre ++ opener ++ mid ++
        ⟨TokenKind.closeBracket, tc⟩ :: post) ed) = 1 := by
  have hrest2 : ∀ (t2' : String) (c1 : Classifier), c1.inAttribute = true →
      countEnter (runFrom c1 ((⟨TokenKind.openBracket, t2'⟩ :: mid) ++
        ⟨TokenKind.closeBracket, tc⟩ :: post)) = 0 ∧
      countExit (runFrom c1 ((⟨TokenKind.openBracket, t2'⟩ :: mid) ++
        ⟨TokenKind.closeBracket, tc⟩ :: post)) = 1 := by
    intro t2' c1 hA
    have hpf2 : PoundFree ((⟨TokenKind.openBracket, t2'⟩ :: mid) ++
        ⟨TokenKind.closeBracket, tc⟩ :: post) := by
      refine PoundFree_append _ _ ?_ ?_
      · rw [PoundFree_cons_iff]
        exact ⟨by simp, hmid⟩
      · rw [PoundFree_cons_iff]
        exact ⟨by simp, hpost⟩
    have hcc : containsClose ((⟨TokenKind.openBracket, t2'⟩ :: mid) ++
        ⟨TokenKind.closeBracket, tc⟩ :: post) = true := by
      rw [containsClose_append]
      have hc2 : containsClose
          (⟨TokenKind.closeBracket, tc⟩ :: post) = true := by
        rw [containsClose_cons]
        simp
      rw [hc2]
      simp
    obtain ⟨hE, hX⟩ := runFrom_poundfree _ c1 hpf2
    rw [hcc, hA] at hX
    simp only [and_self, if_true] at hX
    exact ⟨hE, hX⟩
  have hhead : headKind (opener ++ mid ++
      ⟨TokenKind.closeBracket, tc⟩ :: post) = some TokenKind.pound := by
    rcases hop with ⟨t1, t2, rfl⟩ | ⟨t1, t2, t3, rfl⟩ <;> rfl
  obtain ⟨evs0, c0, heq0, hE0, hX0, hF0⟩ :=
    runFrom_poundfree_append pre.length pre (Classifier.new ed)
      (opener ++ mid ++ ⟨TokenKind.closeBracket, tc⟩ :: post)
      (Nat.le_refl _) hpre (by rw [hhead]; simp) (by rw [hhead]; simp)
  have hF0' : c0.inAttribute = false := by
    rw [hF0]
    simp [Classifier.new]
  have hX0' : countExit evs0 = 0 := by
    rw [hX0]
    simp [Classifier.new]
  rcases hop with ⟨t1, t2, rfl⟩ | ⟨t1, t2, t3, rfl⟩
  · -- outer attribute  #[ ...
    have hsplit : ([⟨TokenKind.pound, t1⟩, ⟨TokenKind.openBracket, t2⟩] ++
        mid ++ ⟨TokenKind.closeBracket, tc⟩ :: post) =
        ⟨TokenKind.pound, t1⟩ :: ((⟨TokenKind.openBracket, t2⟩ :: mid) ++
          ⟨TokenKind.closeBracket, tc⟩ :: post) := by
      simp
    have hstep : step c0 ⟨TokenKind.pound, t1⟩
        ((⟨TokenKind.openBracket, t2⟩ :: mid) ++
          ⟨TokenKind.closeBracket, tc⟩ :: post) =
        ({ c0 with inAttribute := true }, false,
         [Highlight.EnterSpan Class.Attribute,
          Highlight.Token t1 none]) := by
      simp [step, headKind]
    rw [hsplit, runFrom_cons, hstep] at heq0
    simp only [if_neg (by simp : ¬(false = true))] at heq0
    have hgoal : highlight (pre ++ [⟨TokenKind.pound, t1⟩,
        ⟨TokenKind.openBracket, t2⟩] ++ mid ++
        ⟨TokenKind.closeBracket, tc⟩ :: post) ed =
        runFrom (Classifier.new ed) (pre ++ (⟨TokenKind.pound, t1⟩ ::
          ((⟨TokenKind.openBracket, t2⟩ :: mid) ++
            ⟨TokenKind.closeBracket, tc⟩ :: post))) := by
      simp [highlight, List.append_assoc]
    obtain ⟨hE2, hX2⟩ := hrest2 t2 { c0 with inAttribute := true } rfl
    have hm1 : countEnter [Highlight.EnterSpan Class.Attribute,
        Highlight.Token t1 none] = 1 := rfl
    have hm2 : countExit [Highlight.EnterSpan Class.Attribute,
        Highlight.Token t1 none] = 0 := rfl
    rw [hgoal, heq0]
    constructor
    · rw [countEnter_append, countEnter_append, hE0, hE2, hm1]
    · rw [countExit_append, countExit_append, hX0', hX2, hm2]
  · -- inner attribute  #![ ...
    have hsplit : ([⟨TokenKind.pound, t1⟩, ⟨TokenKind.bang, t2⟩,
        ⟨TokenKind.openBracket, t3⟩] ++
        mid ++ ⟨TokenKind.closeBracket, tc⟩ :: post) =
        ⟨TokenKind.pound, t1⟩ :: (⟨TokenKind.bang, t2⟩ ::
          ((⟨TokenKind.openBracket, t3⟩ :: mid) ++
            ⟨TokenKind.closeBracket, tc⟩ :: post)) := by
      simp
    have hstep : step c0 ⟨TokenKind.pound, t1⟩
        (⟨TokenKind.bang, t2⟩ :: ((⟨TokenKind.openBracket, t3⟩ :: mid) ++
          ⟨TokenKind.closeBracket, tc⟩ :: post)) =
        ({ c0 with inAttribute := true }, true,
         [Highlight.EnterSpan Class.Attribute,
          Highlight.Token "#" none, Highlight.Token "!" none]) := by
      simp [step, headKind]
    rw [hsplit, runFrom_cons, hstep] at heq0
    simp only [if_pos, if_true, List.tail_cons] at heq0
    have hgoal : highlight (pre ++ [⟨TokenKind.pound, t1⟩,
        ⟨TokenKind.bang, t2⟩, ⟨TokenKind.openBracket, t3⟩] ++ mid ++
        ⟨TokenKind.closeBracket, tc⟩ :: post) ed =
        runFrom (Classifier.new ed) (pre ++ (⟨TokenKind.pound, t1⟩ ::
          (⟨TokenKind.bang, t2⟩ :: ((⟨TokenKind.openBracket, t3⟩ :: mid) ++
            ⟨TokenKind.closeBracket, tc⟩ :: post)))) := by
      simp [highlight, List.append_assoc]
    obtain ⟨hE2, hX2⟩ := hrest2 t3 { c0 with inAttribute := true } rfl
    have hm1 : countEnter [Highlight.EnterSpan Class.Attribute,
        Highlight.Token "#" none, Highlight.Token "!" none] = 1 := rfl
    have hm2 : countExit [Highlight.EnterSpan Class.Attribute,
        Highlight.Token "#" none, Highlight.Token "!" none] = 0 := rfl
    rw [hgoal, heq0]
    constructor
    · rw [countEnter_append, countEnter_append, hE0, hE2, hm1]
    · rw [countExit_append, countExit_append, hX0', hX2, hm2]

theorem claim_C7_amended_witness :
    countEnter (highlight
      [⟨TokenKind.pound, "#"⟩, ⟨TokenKind.openBracket, "["⟩,
       ⟨TokenKind.ident, "derive"⟩, ⟨TokenKind.openParen, "("⟩,
       ⟨TokenKind.ident, "Debug"⟩, ⟨TokenKind.closeParen, ")"⟩,
       ⟨TokenKind.closeBracket, "]"⟩] Edition.e2015) = 1
    ∧ countExit (highlight
      [⟨TokenKind.pound, "#"⟩, ⟨TokenKind.openBracket, "["⟩,
       ⟨TokenKind.ident, "derive"⟩, ⟨TokenKind.openParen, "("⟩,
       ⟨TokenKind.ident, "Debug"⟩, ⟨TokenKind.closeParen, ")"⟩,
       ⟨TokenKind.closeBracket, "]"⟩] Edition.e2015) = 1 :=
  claim_C7_amended Edition.e2015 []
    [⟨TokenKind.ident, "derive"⟩, ⟨TokenKind.openParen, "("⟩,
     ⟨TokenKind.ident, "Debug"⟩, ⟨TokenKind.closeParen, ")"⟩] []
    [⟨TokenKind.pound, "#"⟩, ⟨TokenKind.openBracket, "["⟩] "]"
    (by unfold PoundFree; decide) (by unfold PoundFree; decide)
    (by unfold PoundFree; decide) (Or.inl ⟨"#", "[", rfl⟩)

/-- C8: for the truncated attribute input `"#[foo"` (no closing bracket),
`highlight` emits exactly one `EnterSpan(Attribute)` and zero `ExitSpan`
events, and (being a total function) completes without any error. -/
theorem claim_C8_truncated_attr :
    highlight [⟨TokenKind.pound, "#"⟩, ⟨TokenKind.openBracket, "["⟩,
        ⟨TokenKind.ident, "foo"⟩] Edition.e2015 =
      [Highlight.EnterSpan Class.Attribute, Highlight.Token "#" none,
       Highlight.Token "[" none, Highlight.Token "foo" (some Class.Ident)]
    ∧ countEnter (highlight [⟨TokenKind.pound, "#"⟩,
        ⟨TokenKind.openBracket, "["⟩, ⟨TokenKind.ident, "foo"⟩]
        Edition.e2015) = 1
    ∧ countExit (highlight [⟨TokenKind.pound, "#"⟩,
        ⟨TokenKind.openBracket, "["⟩, ⟨TokenKind.ident, "foo"⟩]
        Edition.e2015) = 0 := by
  refine ⟨by decide, by decide, by decide⟩

/-- C9: the class-to-external-name mapping `Class::as_html` is exactly the
17-entry table stated in the spec. -/
theorem claim_C9_as_html_table :
    Class.as_html Class.Comment = "comment"
    ∧ Class.as_html Class.DocComment = "doccomment"
    ∧ Class.as_html Class.Attribute = "attribute"
    ∧ Class.as_html Class.KeyWord = "kw"
    ∧ Class.as_html Class.RefKeyWord = "kw-2"
    ∧ Class.as_html Class.Self_ = "self"
    ∧ Class.as_html Class.Op = "op"
    ∧ Class.as_html Class.Macro = "macro"
    ∧ Class.as_html Class.MacroNonTerminal = "macro-nonterminal"
    ∧ Class.as_html Class.String = "string"
    ∧ Class.as_html Class.Number = "number"
    ∧ Class.as_html Class.Bool = "bool-val"
    ∧ Class.as_html Class.Ident = "ident"
    ∧ Class.as_html Class.Lifetime = "lifetime"
    ∧ Class.as_html Class.PreludeTy = "prelude-ty"
    ∧ Class.as_html Class.PreludeVal = "prelude-val"
    ∧ Class.as_html Class.QuestionMark = "question-mark" := by
  decide

/-- C10: along any run of `highlight` (configurations reachable from a
fresh state), whenever a per-token step begins with `in_macro` set, the
current token is a `!`, and that step emits exactly one `Macro`-classed
token and clears the flag; conversely the only step that sets `in_macro`
is an identifier or raw identifier with `!` lookahead, which itself is
emitted with class `Macro` and leaves the `!` as the next token — hence
every `!` emitted `Macro` immediately follows an identifier emitted
`Macro`. -/
theorem claim_C10_in_macro_invariant :
    (∀ (ed : Edition) (toks : List Tok) (c' : Classifier)
        (toks' : List Tok),
      Reach (Classifier.new ed, toks) (c', toks') →
      c'.inMacro = true →
      ∃ t rest2, toks' = ⟨TokenKind.bang, t⟩ :: rest2
        ∧ (step c' ⟨TokenKind.bang, t⟩ rest2).2.2 =
            [Highlight.Token t (some Class.Macro)]
        ∧ (step c' ⟨TokenKind.bang, t⟩ rest2).1.inMacro = false)
    ∧ (∀ (c : Classifier) (tok : Tok) (rest : List Tok),
        c.inMacro = false →
        (step c tok rest).1.inMacro = true →
        (tok.kind = TokenKind.ident ∨ tok.kind = TokenKind.rawIdent)
        ∧ (step c tok rest).2.2 =
            [Highlight.Token tok.text (some Class.Macro)]
        ∧ headKind rest = some TokenKind.bang
        ∧ (step c tok rest).2.1 = false) := by
  constructor
  · intro ed toks c' toks' hreach hM
    obtain ⟨t, rest2, heq⟩ :=
      reach_inMacro_bang (Classifier.new ed, toks) (c', toks') hreach rfl hM
    exact ⟨t, rest2, heq, by rw [step_bang_true c' t rest2 hM],
      by rw [step_bang_true c' t rest2 hM]⟩
  · exact step_sets_inMacro

theorem claim_C10_in_macro_invariant_witness :
    ((step (⟨false, true, false, Edition.e2015⟩ : Classifier)
        ⟨TokenKind.bang, "!"⟩ ([] : List Tok)).2.2 =
      [Highlight.Token "!" (some Class.Macro)])
    ∧ ((step (⟨false, true, false, Edition.e2015⟩ : Classifier)
        ⟨TokenKind.bang, "!"⟩ ([] : List Tok)).1.inMacro = false)
    ∧ ((TokenKind.ident = TokenKind.ident ∨
        TokenKind.ident = TokenKind.rawIdent)
      ∧ (step (Classifier.new Edition.e2015) ⟨TokenKind.ident, "println"⟩
          [⟨TokenKind.bang, "!"⟩]).2.2 =
        [Highlight.Token "println" (some Class.Macro)]
      ∧ headKind [(⟨TokenKind.bang, "!"⟩ : Tok)] = some TokenKind.bang
      ∧ (step (Classifier.new Edition.e2015) ⟨TokenKind.ident, "println"⟩
          [⟨TokenKind.bang, "!"⟩]).2.1 = false) := by
  have h1 := claim_C10_in_macro_invariant.1 Edition.e2015
    [⟨TokenKind.ident, "println"⟩, ⟨TokenKind.bang, "!"⟩]
    ⟨false, true, false, Edition.e2015⟩ [⟨TokenKind.bang, "!"⟩]
    (Reach.tail (Classifier.new Edition.e2015) ⟨TokenKind.ident, "println"⟩
      [⟨TokenKind.bang, "!"⟩] (Reach.refl _)) rfl
  obtain ⟨t, rest2, heq, hev, hfl⟩ := h1
  have heq' : (⟨TokenKind.bang, "!"⟩ : Tok) :: ([] : List Tok) =
      ⟨TokenKind.bang, t⟩ :: rest2 := heq
  injection heq' with hh1 hh2
  injection hh1 with _ hh3
  subst hh3
  subst hh2
  exact ⟨hev, hfl,
    claim_C10_in_macro_invariant.2 (Classifier.new Edition.e2015)
      ⟨TokenKind.ident, "println"⟩ [⟨TokenKind.bang, "!"⟩] rfl (by decide)⟩

end Rustdoc
